import Mathlib

/-!
Shallow embedding of the eBPF event-aggregation programs of this repository
(src/bpf/cpu_hotspot.c and src/bpf/memory_faults.c) and proofs of the spec
claims about them.

Machine integers are modelled as `Nat` with explicit reduction modulo `2 ^ 32`
(`u32`) and `2 ^ 64` (`u64`) where the C types force it.  The BPF hash maps are
modelled as association lists with a fixed capacity; `bpf_map_update_elem` with
flag `BPF_ANY` overwrites an existing key and silently drops insertion of a new
key into a full table, matching the documented kernel helper behaviour (the map
implementation itself lives in the kernel, not in this repository).  String
buffers (`comm`, `cgroup`) are lists of byte values, zero-padded to their fixed
width exactly as the C code's `__builtin_memset` plus bounded copies produce.
-/

namespace HotspotBPF

def U32 : Nat := 2 ^ 32

def U64 : Nat := 2 ^ 64

/-- Wrapping unsigned 64-bit subtraction, the value of the C expression
`ts - st->ts` at type `u64`. -/
def usub64 (a b : Nat) : Nat := (a + (U64 - b % U64)) % U64

/-- `bpf_map_lookup_elem` on an association-list table: first entry whose key
matches. -/
def tlookup {ν : Type} : List (Nat × ν) → Nat → Option ν
  | [], _ => none
  | (k, v) :: r, x => if k = x then some v else tlookup r x

/-- Overwriting the value stored at an existing key, which is what the C code's
in-place mutation through the pointer returned by `bpf_map_lookup_elem` does.
A key that is absent leaves the table unchanged. -/
def treplace {ν : Type} : List (Nat × ν) → Nat → ν → List (Nat × ν)
  | [], _, _ => []
  | (k, v) :: r, x, w => if k = x then (k, w) :: r else (k, v) :: treplace r x w

/-- `bpf_map_update_elem` with `BPF_ANY` on a bounded hash table: overwrite if
the key already exists (always succeeds, regardless of fullness); otherwise
insert only while spare capacity remains, silently leaving the table unchanged
when it is full (the kernel returns `-E2BIG`, which the C code ignores). -/
def tinsert {ν : Type} (cap : Nat) (t : List (Nat × ν)) (k : Nat) (v : ν) :
    List (Nat × ν) :=
  match tlookup t k with
  | some _ => treplace t k v
  | none => if t.length < cap then (k, v) :: t else t

/-- Parent kernfs node as seen by `snapshot_cgroup`: only its `name` field is
read; `none` models a NULL `name` field. -/
structure ParentNode where
  name : Option (List Nat)
deriving DecidableEq

/-- Leaf kernfs node: its `name` field and its `parent` link, either of which
may be NULL. -/
structure KNode where
  name : Option (List Nat)
  parent : Option ParentNode
deriving DecidableEq

/-- The identity graph reachable from the current execution context at the
moment of an event: whether the `task_struct`, `css_set` and `cgroup` hops are
non-NULL, and the `kernfs_node` reached at the end of the walk.  This is the
per-event input to `snapshot_cgroup`. -/
structure TaskCtx where
  task : Bool
  cset : Bool
  cgrp : Bool
  kn : Option KNode
deriving DecidableEq

/-- `bpf_core_read_str` into a `len`-byte buffer that was just zeroed: copies
at most `len - 1` bytes of the source string and leaves the rest of the buffer
null.  On a valid kernel string pointer the helper always returns a positive
count (the bytes written including the terminator), so reading a present name
never fails. -/
def readStr (len : Nat) (s : List Nat) : List Nat :=
  let w := s.take (len - 1)
  w ++ List.replicate (len - w.length) 0

/-- `write_placeholder`: zero the buffer, then store the three sentinel bytes
110, 47, 97 (the characters of the string "n/a"), each store guarded by the
buffer length exactly as in the C code (`List.set` out of range is a no-op). -/
def write_placeholder (len : Nat) : List Nat :=
  (((List.replicate len 0).set 0 110).set 1 47).set 2 97

/-- `snapshot_cgroup`: zero the destination, walk
task -> css_set -> cgroup -> kernfs_node, fail if any hop is NULL; read the
leaf node's name when its pointer is present (a successful `bpf_core_read_str`
returns a positive count even for an empty string); otherwise follow the
`parent` link once and read its name.  Failure leaves the zeroed buffer. -/
def snapshot_cgroup (g : TaskCtx) (len : Nat) : Bool × List Nat :=
  if len = 0 then (false, List.replicate len 0)
  else
    let dst := List.replicate len 0
    if g.task = false then (false, dst)
    else if g.cset = false then (false, dst)
    else if g.cgrp = false then (false, dst)
    else
      match g.kn with
      | none => (false, dst)
      | some kn =>
        match kn.name with
        | some leaf => (true, readStr len leaf)
        | none =>
          match kn.parent with
          | none => (false, dst)
          | some p =>
            match p.name with
            | some pn => (true, readStr len pn)
            | none => (false, dst)

/-- The caller pattern `if (!snapshot_cgroup(buf, 64)) write_placeholder(buf, 64)`
shared by both C files: the resulting contents of the 64-byte `cgroup` field. -/
def resolveOrPlaceholder (g : TaskCtx) : List Nat :=
  let r := snapshot_cgroup g 64
  if r.1 then r.2 else write_placeholder 64

/-- `struct cpu_state`: the per-CPU scratch slot holding the last-seen pid and
timestamp. -/
structure cpu_state where
  pid : Nat
  ts : Nat
deriving DecidableEq

/-- `struct pid_stat`: accumulated CPU time plus fixed-width `comm` (16 bytes)
and `cgroup` (64 bytes) buffers. -/
structure pid_stat where
  cpu_time_ns : Nat
  comm : List Nat
  cgroup : List Nat
deriving DecidableEq

/-- One `sched_switch` tracepoint event as seen by the handler: the timestamp
returned by `bpf_ktime_get_ns`, the `prev_pid` and `next_pid` context fields
(u32), the current task's `comm` captured by `bpf_get_current_comm`, and the
identity graph visible to `snapshot_cgroup` at that moment. -/
structure SwitchEvent where
  ts : Nat
  prev_pid : Nat
  next_pid : Nat
  comm : List Nat
  graph : TaskCtx
deriving DecidableEq

/-- The whole state touched by `handle_sched_switch` on one execution unit:
the per-CPU `cpu_state` slot (the PERCPU_ARRAY has one entry and is looked up
at key 0, so the lookup is total) and the two shared hash maps. -/
structure CpuSys where
  st : cpu_state
  pid_stats : List (Nat × pid_stat)
  cpu_contention : List (Nat × Nat)
deriving DecidableEq

/-- `handle_sched_switch` from src/bpf/cpu_hotspot.c, lines 88-138.  Values
read from the u32/u64-typed context fields are reduced to their machine width
at the point of the read. -/
def handle_sched_switch (e : SwitchEvent) (s : CpuSys) : CpuSys :=
  let ts := e.ts % U64
  let victim := e.prev_pid % U32
  let aggressor := e.next_pid % U32
  let contention :=
    if victim ≠ 0 ∧ aggressor ≠ 0 then
      let pair := victim * U32 + aggressor
      match tlookup s.cpu_contention pair with
      | some cnt => treplace s.cpu_contention pair ((cnt + 1) % U64)
      | none => tinsert 2048 s.cpu_contention pair 1
    else s.cpu_contention
  let stats :=
    if s.st.pid ≠ 0 then
      let delta := usub64 ts s.st.ts
      let pid := s.st.pid
      match tlookup s.pid_stats pid with
      | none =>
        let new_ps : pid_stat :=
          { cpu_time_ns := delta
            comm := readStr 16 e.comm
            cgroup := resolveOrPlaceholder e.graph }
        tinsert 10240 s.pid_stats pid new_ps
      | some ps =>
        let cgroup2 :=
          if ps.cgroup.headD 0 = 0 then resolveOrPlaceholder e.graph else ps.cgroup
        let comm2 :=
          if ps.comm.headD 0 = 0 then readStr 16 e.comm else ps.comm
        treplace s.pid_stats pid
          { cpu_time_ns := (ps.cpu_time_ns + delta) % U64
            comm := comm2
            cgroup := cgroup2 }
    else s.pid_stats
  { st := { pid := aggressor, ts := ts }
    pid_stats := stats
    cpu_contention := contention }

/-- `struct fault_stat`: fault counter plus the fixed 64-byte `cgroup` buffer. -/
structure fault_stat where
  faults : Nat
  cgroup : List Nat
deriving DecidableEq

/-- One page-fault event as seen by `record_fault`: the u64 value returned by
`bpf_get_current_pid_tgid` and the identity graph visible at that moment. -/
structure FaultEvent where
  pid_tgid : Nat
  graph : TaskCtx
deriving DecidableEq

/-- `record_fault` from src/bpf/memory_faults.c, lines 66-85.  The acting id is
the upper 32 bits of `bpf_get_current_pid_tgid`. -/
def record_fault (e : FaultEvent) (page_faults : List (Nat × fault_stat)) :
    List (Nat × fault_stat) :=
  let pid := (e.pid_tgid % U64) / U32
  if pid = 0 then page_faults
  else
    match tlookup page_faults pid with
    | some entry =>
      let cgroup2 :=
        if entry.cgroup.headD 0 = 0 then resolveOrPlaceholder e.graph
        else entry.cgroup
      treplace page_faults pid
        { faults := (entry.faults + 1) % U64, cgroup := cgroup2 }
    | none =>
      let init : fault_stat :=
        { faults := 1, cgroup := resolveOrPlaceholder e.graph }
      tinsert 4096 page_faults pid init

/-- Deliver a sequence of context-switch events, in order, on one execution
unit. -/
def runSwitches (s : CpuSys) : List SwitchEvent → CpuSys
  | [] => s
  | e :: r => runSwitches (handle_sched_switch e s) r

/-- Deliver a sequence of page-fault events, in order. -/
def runFaults (t : List (Nat × fault_stat)) : List FaultEvent → List (Nat × fault_stat)
  | [] => t
  | e :: r => runFaults (record_fault e t) r

/-- Initial state: the per-CPU slot is zero-initialized and both maps start
empty. -/
def initCpuSys : CpuSys :=
  { st := { pid := 0, ts := 0 }, pid_stats := [], cpu_contention := [] }

/-- CPU time accumulated for a key, reading an absent entry as zero. -/
def getCpu : Option pid_stat → Nat
  | none => 0
  | some ps => ps.cpu_time_ns

/-- Spec-side sum for claim C1: starting from a stored (pid, timestamp) pair,
the total of the consecutive event intervals in which `x` was the outgoing
(previously stored) entity. -/
def sumFrom (x : Nat) (p : Nat) (t : Nat) : List SwitchEvent → Nat
  | [] => 0
  | e :: r => (if p = x then e.ts - t else 0) + sumFrom x e.next_pid e.ts r

/-- Event well-formedness: the values carried by the kernel context fit their
machine types (`ts` is u64, the two pid fields are u32). -/
def EventWF (e : SwitchEvent) : Prop :=
  e.ts < U64 ∧ e.prev_pid < U32 ∧ e.next_pid < U32

instance (e : SwitchEvent) : Decidable (EventWF e) :=
  inferInstanceAs (Decidable (e.ts < U64 ∧ e.prev_pid < U32 ∧ e.next_pid < U32))

/-- Timestamps of an event sequence are monotone non-decreasing, starting from
a stored timestamp `t` (the spec assumes a monotonic timestamp source). -/
def tsChain (t : Nat) : List SwitchEvent → Prop
  | [] => True
  | e :: r => t ≤ e.ts ∧ tsChain e.ts r

instance tsChainDec : (t : Nat) → (es : List SwitchEvent) → Decidable (tsChain t es)
  | _, [] => isTrue trivial
  | t, e :: r =>
    have : Decidable (tsChain e.ts r) := tsChainDec e.ts r
    inferInstanceAs (Decidable (t ≤ e.ts ∧ tsChain e.ts r))

/-- An identity graph in which every hop is present and the leaf node's name is
the non-empty string of bytes 115, 118, 99 ("svc"). -/
def gGood : TaskCtx := ⟨true, true, true, some ⟨some [115, 118, 99], none⟩⟩

/-- An identity graph whose very first hop (the task pointer) is absent, so
resolution fails. -/
def gFail : TaskCtx := ⟨false, false, false, none⟩

/-- An identity graph whose leaf node is present with an empty name, and whose
parent node carries the non-empty name byte 112 ("p"). -/
def gEmptyLeaf : TaskCtx := ⟨true, true, true, some ⟨some [], some ⟨some [112]⟩⟩⟩

/-- Concrete context-switch events used to instantiate theorems with
hypotheses. -/
def evA : SwitchEvent := ⟨100, 1, 42, [120], gFail⟩

def evB : SwitchEvent := ⟨150, 42, 7, [120], gFail⟩

def evC : SwitchEvent := ⟨400, 7, 42, [120], gFail⟩

/-- A switch event whose outgoing and incoming ids coincide (prev = next = 5). -/
def evEq : SwitchEvent := ⟨10, 5, 5, [120], gFail⟩

/-- A switch event with the distinct id pair (victim 5, aggressor 7). -/
def evD : SwitchEvent := ⟨10, 5, 7, [120], gFail⟩

/-- Fault events for entity 9 (`bpf_get_current_pid_tgid` carries the id in its
upper 32 bits) with failing, succeeding and empty-leaf identity graphs. -/
def fFail : FaultEvent := ⟨9 * U32, gFail⟩

def fGood : FaultEvent := ⟨9 * U32, gGood⟩

def fEmpty : FaultEvent := ⟨9 * U32, gEmptyLeaf⟩

/-- A system state whose `pid_stats` table holds key 5 with a non-empty
`cgroup` and `comm`, and whose per-unit slot last saw entity 5. -/
def sFrozen : CpuSys := ⟨⟨5, 3⟩, [(5, ⟨1, [120], [110]⟩)], []⟩

/-- A two-entry table at capacity 2, used to exercise the full-table policy. -/
def tinyTable : List (Nat × Nat) := [(1, 10), (2, 20)]

/-- Program counter of one execution unit running the contention upsert of
src/bpf/cpu_hotspot.c lines 101-107: about to issue the map lookup, about to
issue the increment-or-insert, or finished. -/
inductive Pc where
  | atLookup : Pc
  | atUpdate : Pc
  | finished : Pc
deriving DecidableEq

/-- Local state of one unit running the contention upsert: its program counter
and the result its lookup returned. -/
structure AgentSt where
  pc : Pc
  saved : Option Nat
deriving DecidableEq

/-- One atomic machine step of the contention upsert sequence for key `k`:
the map lookup and the subsequent increment-or-insert are separate steps,
each individually atomic, exactly as the two separate helper calls in the C
code. -/
def contentionStep (k : Nat) (a : AgentSt) (tbl : List (Nat × Nat)) :
    AgentSt × List (Nat × Nat) :=
  match a.pc with
  | Pc.atLookup => (⟨Pc.atUpdate, tlookup tbl k⟩, tbl)
  | Pc.atUpdate =>
    match a.saved with
    | some cnt => (⟨Pc.finished, a.saved⟩, treplace tbl k ((cnt + 1) % U64))
    | none => (⟨Pc.finished, a.saved⟩, tinsert 2048 tbl k 1)
  | Pc.finished => (a, tbl)

/-- Two execution units concurrently running the contention upsert against the
shared `cpu_contention` table. -/
structure TwoAgents where
  agA : AgentSt
  agB : AgentSt
  tbl : List (Nat × Nat)
deriving DecidableEq

/-- Let the scheduled unit (`true` = A, `false` = B) perform its next atomic
step. -/
def schedStep (k : Nat) (s : TwoAgents) (who : Bool) : TwoAgents :=
  if who then
    let r := contentionStep k s.agA s.tbl
    ⟨r.1, s.agB, r.2⟩
  else
    let r := contentionStep k s.agB s.tbl
    ⟨s.agA, r.1, r.2⟩

/-- Run an explicit interleaving of the two units' steps. -/
def runSched (k : Nat) : TwoAgents → List Bool → TwoAgents
  | s, [] => s
  | s, w :: r => runSched k (schedStep k s w) r

/-- Both units at their lookup step, shared table empty. -/
def c9init : TwoAgents := ⟨⟨Pc.atLookup, none⟩, ⟨Pc.atLookup, none⟩, []⟩

theorem tlookup_mem {ν : Type} {T : List (Nat × ν)} {x : Nat} {v : ν}
    (h : tlookup T x = some v) : (x, v) ∈ T := by
  induction T with
  | nil => simp [tlookup] at h
  | cons q r ih =>
    obtain ⟨k, w⟩ := q
    by_cases hk : k = x
    · subst hk
      simp [tlookup] at h
      subst h
      exact List.mem_cons_self _ _
    · simp [tlookup, hk] at h
      exact List.mem_cons_of_mem _ (ih h)

theorem tlookup_treplace_ne {ν : Type} (T : List (Nat × ν)) {k x : Nat} (w : ν)
    (h : k ≠ x) : tlookup (treplace T k w) x = tlookup T x := by
  induction T with
  | nil => rfl
  | cons q r ih =>
    obtain ⟨k', v'⟩ := q
    by_cases hk : k' = k
    · subst hk
      simp [treplace, tlookup, h]
    · simp [treplace, hk, tlookup]
      by_cases hx : k' = x
      · simp [hx]
      · simp [hx, ih]

theorem tlookup_treplace_self {ν : Type} {T : List (Nat × ν)} {k : Nat} {v : ν}
    (w : ν) (h : tlookup T k = some v) :
    tlookup (treplace T k w) k = some w := by
  induction T with
  | nil => simp [tlookup] at h
  | cons q r ih =>
    obtain ⟨k', v'⟩ := q
    by_cases hk : k' = k
    · subst hk
      simp [treplace, tlookup]
    · simp [tlookup, hk] at h
      simp [treplace, hk, tlookup, ih h]

theorem treplace_length {ν : Type} (T : List (Nat × ν)) (k : Nat) (w : ν) :
    (treplace T k w).length = T.length := by
  induction T with
  | nil => rfl
  | cons q r ih =>
    obtain ⟨k', v'⟩ := q
    by_cases hk : k' = k <;> simp [treplace, hk, ih]

theorem treplace_keys {ν : Type} (T : List (Nat × ν)) (k : Nat) (w : ν) :
    (treplace T k w).map Prod.fst = T.map Prod.fst := by
  induction T with
  | nil => rfl
  | cons q r ih =>
    obtain ⟨k', v'⟩ := q
    by_cases hk : k' = k <;> simp [treplace, hk, ih]

theorem tinsert_of_some {ν : Type} {T : List (Nat × ν)} {k : Nat} {v : ν}
    (cap : Nat) (w : ν) (h : tlookup T k = some v) :
    tinsert cap T k w = treplace T k w := by
  simp [tinsert, h]

theorem tinsert_of_none_lt {ν : Type} {T : List (Nat × ν)} {k : Nat}
    (cap : Nat) (w : ν) (h : tlookup T k = none) (hlen : T.length < cap) :
    tinsert cap T k w = (k, w) :: T := by
  simp [tinsert, h, hlen]

theorem tinsert_of_none_full {ν : Type} {T : List (Nat × ν)} {k : Nat}
    (cap : Nat) (w : ν) (h : tlookup T k = none) (hlen : ¬ T.length < cap) :
    tinsert cap T k w = T := by
  simp [tinsert, h, hlen]

theorem tlookup_tinsert_ne {ν : Type} (cap : Nat) (T : List (Nat × ν))
    {k x : Nat} (w : ν) (h : k ≠ x) :
    tlookup (tinsert cap T k w) x = tlookup T x := by
  unfold tinsert
  cases hl : tlookup T k with
  | some v => exact tlookup_treplace_ne T w h
  | none =>
    by_cases hlen : T.length < cap
    · simp [hlen, tlookup, h]
    · simp [hlen]

theorem tinsert_length_le {ν : Type} (cap : Nat) (T : List (Nat × ν))
    (k : Nat) (w : ν) : (tinsert cap T k w).length ≤ T.length + 1 := by
  unfold tinsert
  cases hl : tlookup T k with
  | some v => simp [treplace_length]
  | none =>
    by_cases hlen : T.length < cap
    · simp [hlen]
    · simp [hlen]

theorem handle_st (e : SwitchEvent) (s : CpuSys) :
    (handle_sched_switch e s).st = ⟨e.next_pid % U32, e.ts % U64⟩ := rfl

theorem handle_contention (e : SwitchEvent) (s : CpuSys) :
    (handle_sched_switch e s).cpu_contention =
      if e.prev_pid % U32 ≠ 0 ∧ e.next_pid % U32 ≠ 0 then
        match tlookup s.cpu_contention
            ((e.prev_pid % U32) * U32 + e.next_pid % U32) with
        | some cnt =>
          treplace s.cpu_contention
            ((e.prev_pid % U32) * U32 + e.next_pid % U32) ((cnt + 1) % U64)
        | none =>
          tinsert 2048 s.cpu_contention
            ((e.prev_pid % U32) * U32 + e.next_pid % U32) 1
      else s.cpu_contention := rfl

theorem handle_stats (e : SwitchEvent) (s : CpuSys) :
    (handle_sched_switch e s).pid_stats =
      if s.st.pid ≠ 0 then
        match tlookup s.pid_stats s.st.pid with
        | none =>
          tinsert 10240 s.pid_stats s.st.pid
            ⟨usub64 (e.ts % U64) s.st.ts, readStr 16 e.comm,
             resolveOrPlaceholder e.graph⟩
        | some ps =>
          treplace s.pid_stats s.st.pid
            ⟨(ps.cpu_time_ns + usub64 (e.ts % U64) s.st.ts) % U64,
             if ps.comm.headD 0 = 0 then readStr 16 e.comm else ps.comm,
             if ps.cgroup.headD 0 = 0 then resolveOrPlaceholder e.graph
             else ps.cgroup⟩
      else s.pid_stats := rfl

theorem U32_pos : 0 < U32 := by decide

theorem pack_div {a : Nat} (v : Nat) (ha : a < U32) : (v * U32 + a) / U32 = v := by
  rw [Nat.mul_comm v U32, Nat.mul_add_div U32_pos, Nat.div_eq_of_lt ha]
  omega

theorem pack_mod {a : Nat} (v : Nat) (ha : a < U32) : (v * U32 + a) % U32 = a := by
  rw [Nat.mul_comm v U32, Nat.mul_add_mod, Nat.mod_eq_of_lt ha]

theorem pack_ne {v a : Nat} (hv : v < U32) (ha : a < U32) (hne : v ≠ a) :
    v * U32 + a ≠ a * U32 + v := by
  intro h
  exact hne (by rw [← pack_div v ha, h, pack_div a hv])

theorem usub64_of_le {a b : Nat} (hle : b ≤ a) (ha : a < U64) :
    usub64 a b = a - b := by
  unfold usub64
  rw [Nat.mod_eq_of_lt (Nat.lt_of_le_of_lt hle ha)]
  have h1 : a + (U64 - b) = U64 + (a - b) := by omega
  rw [h1, Nat.add_mod_left, Nat.mod_eq_of_lt (by omega)]

/-- C7: every context-switch event unconditionally overwrites the per-unit
state slot with the incoming entity id and the event timestamp (their u32/u64
machine values), whatever the contention and stat upserts did; the per-CPU
array slot lookup is total, so no path skips the update. -/
theorem c7_state_update_unconditional (e : SwitchEvent) (s : CpuSys) :
    (handle_sched_switch e s).st.pid = e.next_pid % U32
  ∧ (handle_sched_switch e s).st.ts = e.ts % U64 :=
  ⟨rfl, rfl⟩

/-- C6: inserting a new key into a table that is at capacity leaves the table
entirely unchanged (and the operation is a total function, so no error reaches
the caller), while an update to a key already present always succeeds, however
full the table is, and disturbs no other key. -/
theorem c6_capacity_policy {ν : Type} (cap : Nat) (T : List (Nat × ν))
    (k : Nat) (v : ν) :
    (tlookup T k = none → cap ≤ T.length → tinsert cap T k v = T)
  ∧ (∀ w, tlookup T k = some w →
        tlookup (tinsert cap T k v) k = some v
      ∧ (tinsert cap T k v).length = T.length
      ∧ ∀ x, x ≠ k → tlookup (tinsert cap T k v) x = tlookup T x) := by
  constructor
  · intro hnone hcap
    exact tinsert_of_none_full cap v hnone (Nat.not_lt.mpr hcap)
  · intro w hw
    rw [tinsert_of_some cap v hw]
    exact ⟨tlookup_treplace_self v hw, treplace_length T k v,
      fun x hx => tlookup_treplace_ne T v (Ne.symm hx)⟩

/-- C6 witness: a table of two entries at capacity 2 silently drops the new
key 3, while key 1 is updated in place despite the table being full. -/
theorem c6_capacity_policy_witness :
    tinsert 2 tinyTable 3 (99 : Nat) = tinyTable
  ∧ tlookup (tinsert 2 tinyTable 1 (11 : Nat)) 1 = some 11 :=
  ⟨(c6_capacity_policy 2 tinyTable 3 99).1 (by decide) (by decide),
   ((c6_capacity_policy 2 tinyTable 1 11).2 10 (by decide)).1⟩

/-- C8: three fault events for entity 9 where resolution fails at the first
event and would succeed at the second and third: the count reaches 3, the
`cgroup` field is the sentinel bytes 110, 47, 97 ("n/a") padded with nulls
after event 1, and it is still exactly that sentinel after events 2 and 3 even
though the resolver then succeeds (last conjunct). -/
theorem c8_fault_scenario :
    tlookup (runFaults [] [fFail, fGood, fGood]) 9
      = some ⟨3, 110 :: 47 :: 97 :: List.replicate 61 0⟩
  ∧ tlookup (runFaults [] [fFail]) 9
      = some ⟨1, 110 :: 47 :: 97 :: List.replicate 61 0⟩
  ∧ tlookup (runFaults [] [fFail, fGood]) 9
      = some ⟨2, 110 :: 47 :: 97 :: List.replicate 61 0⟩
  ∧ (snapshot_cgroup gGood 64).1 = true := by
  refine ⟨?_, ?_, ?_, ?_⟩ <;> decide

/-- C9: the contention upsert is a map lookup followed by a separate
increment-or-insert (src/bpf/cpu_hotspot.c lines 101-107), not one atomic
step.  With two units both recording the pair (victim 5, aggressor 7) on an
empty table, the interleaving lookup-A, lookup-B, update-A, update-B completes
both increments yet leaves the counter at 1; the serial schedule reaches 2.
One issued increment is lost, contradicting the claimed atomicity. -/
theorem c9_lost_update :
    (runSched (5 * U32 + 7) c9init [true, false, true, false]).agA.pc
      = Pc.finished
  ∧ (runSched (5 * U32 + 7) c9init [true, false, true, false]).agB.pc
      = Pc.finished
  ∧ tlookup (runSched (5 * U32 + 7) c9init [true, false, true, false]).tbl
        (5 * U32 + 7) = some 1
  ∧ tlookup (runSched (5 * U32 + 7) c9init [true, true, false, false]).tbl
        (5 * U32 + 7) = some 2 := by
  refine ⟨?_, ?_, ?_, ?_⟩ <;> decide

/-- C10: when every hop is present and the leaf node's name is the empty
string, `snapshot_cgroup` returns success with the buffer left entirely null,
whatever the parent node holds (no fallback); a fault record resolved through
such a graph therefore keeps an empty `groupPath`, and the next event for that
key re-attempts resolution (here succeeding with the name "svc") despite the
earlier success. -/
theorem c10_empty_leaf_success :
    (∀ p : Option ParentNode,
       snapshot_cgroup ⟨true, true, true, some ⟨some [], p⟩⟩ 64
         = (true, List.replicate 64 0))
  ∧ tlookup (record_fault fEmpty []) 9 = some ⟨1, List.replicate 64 0⟩
  ∧ tlookup (record_fault fGood (record_fault fEmpty [])) 9
      = some ⟨2, readStr 64 [115, 118, 99]⟩ :=
  ⟨fun _ => rfl, by decide, by decide⟩

/-- C5 counterexample: for the non-zero pair (victim 5, aggressor 5) the
reversed key (aggressor << 32) | victim is the very key the event writes, so
the event does touch it: its entry goes from absent to count 1. -/
theorem c5_directional_counterexample :
    evEq.prev_pid = 5 ∧ evEq.next_pid = 5
  ∧ tlookup initCpuSys.cpu_contention (5 * U32 + 5) = none
  ∧ tlookup (handle_sched_switch evEq initCpuSys).cpu_contention
        (5 * U32 + 5) = some 1 := by
  refine ⟨rfl, rfl, rfl, ?_⟩
  decide

/-- C5 amended: for every pair of distinct non-zero u32 ids the event updates
the contention table only at the directional key (victim << 32) | aggressor,
incrementing by 1 when present and inserting count 1 when absent (and the
table not full), and the reversed key (aggressor << 32) | victim is left
untouched. -/
theorem c5_directional_amended (e : SwitchEvent) (s : CpuSys)
    (hvU : e.prev_pid < U32) (haU : e.next_pid < U32)
    (hv0 : e.prev_pid ≠ 0) (ha0 : e.next_pid ≠ 0)
    (hne : e.prev_pid ≠ e.next_pid) :
    (∀ k, k ≠ e.prev_pid * U32 + e.next_pid →
        tlookup (handle_sched_switch e s).cpu_contention k
          = tlookup s.cpu_contention k)
  ∧ tlookup (handle_sched_switch e s).cpu_contention
        (e.next_pid * U32 + e.prev_pid)
      = tlookup s.cpu_contention (e.next_pid * U32 + e.prev_pid)
  ∧ (∀ c, tlookup s.cpu_contention (e.prev_pid * U32 + e.next_pid) = some c →
        tlookup (handle_sched_switch e s).cpu_contention
            (e.prev_pid * U32 + e.next_pid) = some ((c + 1) % U64))
  ∧ (tlookup s.cpu_contention (e.prev_pid * U32 + e.next_pid) = none →
      s.cpu_contention.length < 2048 →
        tlookup (handle_sched_switch e s).cpu_contention
            (e.prev_pid * U32 + e.next_pid) = some 1) := by
  have hv' : e.prev_pid % U32 = e.prev_pid := Nat.mod_eq_of_lt hvU
  have ha' : e.next_pid % U32 = e.next_pid := Nat.mod_eq_of_lt haU
  have hcond : e.prev_pid % U32 ≠ 0 ∧ e.next_pid % U32 ≠ 0 := by
    rw [hv', ha']
    exact ⟨hv0, ha0⟩
  have hc := handle_contention e s
  rw [if_pos hcond, hv', ha'] at hc
  have main : ∀ k, k ≠ e.prev_pid * U32 + e.next_pid →
      tlookup (handle_sched_switch e s).cpu_contention k
        = tlookup s.cpu_contention k := by
    intro k hk
    rw [hc]
    cases hl : tlookup s.cpu_contention (e.prev_pid * U32 + e.next_pid) with
    | some c =>
      exact tlookup_treplace_ne s.cpu_contention _ (Ne.symm hk)
    | none =>
      exact tlookup_tinsert_ne 2048 s.cpu_contention _ (Ne.symm hk)
  refine ⟨main, ?_, ?_, ?_⟩
  · exact main _ (pack_ne haU hvU (Ne.symm hne))
  · intro c hl
    rw [hc, hl]
    exact tlookup_treplace_self _ hl
  · intro hl hlen
    rw [hc, hl, tinsert_of_none_lt 2048 1 hl hlen]
    simp [tlookup]

/-- C5 amended witness: recording (victim 5, aggressor 7) on the empty initial
state leaves the reversed key (7 << 32) | 5 untouched. -/
theorem c5_directional_amended_witness :
    tlookup (handle_sched_switch evD initCpuSys).cpu_contention (7 * U32 + 5)
      = tlookup initCpuSys.cpu_contention (7 * U32 + 5) :=
  (c5_directional_amended evD initCpuSys (by decide) (by decide) (by decide)
    (by decide) (by decide)).2.1

theorem keysP_treplace {ν : Type} (P : Nat → Prop) {T : List (Nat × ν)}
    {k : Nat} {w : ν} (h : ∀ q ∈ T, P q.1) :
    ∀ q ∈ treplace T k w, P q.1 := by
  intro q hq
  have h1 : q.1 ∈ (treplace T k w).map Prod.fst := List.mem_map_of_mem _ hq
  rw [treplace_keys] at h1
  obtain ⟨q', hq', he⟩ := List.mem_map.mp h1
  exact he ▸ h q' hq'

theorem keysP_tinsert {ν : Type} (P : Nat → Prop) (cap : Nat)
    {T : List (Nat × ν)} {k : Nat} {w : ν}
    (h : ∀ q ∈ T, P q.1) (hk : P k) : ∀ q ∈ tinsert cap T k w, P q.1 := by
  cases hl : tlookup T k with
  | some v =>
    rw [tinsert_of_some cap w hl]
    exact keysP_treplace P h
  | none =>
    by_cases hlen : T.length < cap
    · rw [tinsert_of_none_lt cap w hl hlen]
      intro q hq
      rcases List.mem_cons.mp hq with h1 | h2
      · rw [h1]
        exact hk
      · exact h q h2
    · rw [tinsert_of_none_full cap w hl hlen]
      exact h

theorem handle_keys (e : SwitchEvent) (s : CpuSys)
    (h1 : ∀ q ∈ s.pid_stats, q.1 ≠ 0)
    (h2 : ∀ q ∈ s.cpu_contention, q.1 / U32 ≠ 0 ∧ q.1 % U32 ≠ 0) :
    (∀ q ∈ (handle_sched_switch e s).pid_stats, q.1 ≠ 0)
  ∧ ∀ q ∈ (handle_sched_switch e s).cpu_contention,
      q.1 / U32 ≠ 0 ∧ q.1 % U32 ≠ 0 := by
  constructor
  · rw [handle_stats e s]
    by_cases hp : s.st.pid ≠ 0
    · rw [if_pos hp]
      cases hl : tlookup s.pid_stats s.st.pid with
      | none => exact keysP_tinsert (fun x => x ≠ 0) 10240 h1 hp
      | some ps => exact keysP_treplace (fun x => x ≠ 0) h1
    · rw [if_neg hp]
      exact h1
  · rw [handle_contention e s]
    by_cases hc : e.prev_pid % U32 ≠ 0 ∧ e.next_pid % U32 ≠ 0
    · rw [if_pos hc]
      cases hl : tlookup s.cpu_contention
          ((e.prev_pid % U32) * U32 + e.next_pid % U32) with
      | some cnt => exact keysP_treplace (fun x => x / U32 ≠ 0 ∧ x % U32 ≠ 0) h2
      | none =>
        refine keysP_tinsert (fun x => x / U32 ≠ 0 ∧ x % U32 ≠ 0) 2048 h2 ⟨?_, ?_⟩
        · rw [pack_div _ (Nat.mod_lt _ U32_pos)]
          exact hc.1
        · rw [pack_mod _ (Nat.mod_lt _ U32_pos)]
          exact hc.2
    · rw [if_neg hc]
      exact h2

theorem run_keys (es : List SwitchEvent) : ∀ s : CpuSys,
    (∀ q ∈ s.pid_stats, q.1 ≠ 0) →
    (∀ q ∈ s.cpu_contention, q.1 / U32 ≠ 0 ∧ q.1 % U32 ≠ 0) →
    (∀ q ∈ (runSwitches s es).pid_stats, q.1 ≠ 0)
  ∧ ∀ q ∈ (runSwitches s es).cpu_contention,
      q.1 / U32 ≠ 0 ∧ q.1 % U32 ≠ 0 := by
  induction es with
  | nil => exact fun s h1 h2 => ⟨h1, h2⟩
  | cons e r ih =>
    intro s h1 h2
    have hstep := handle_keys e s h1 h2
    exact ih (handle_sched_switch e s) hstep.1 hstep.2

theorem record_fault_keys (e : FaultEvent) (t : List (Nat × fault_stat))
    (h : ∀ q ∈ t, q.1 ≠ 0) : ∀ q ∈ record_fault e t, q.1 ≠ 0 := by
  simp only [record_fault]
  by_cases hp : (e.pid_tgid % U64) / U32 = 0
  · rw [if_pos hp]
    exact h
  · rw [if_neg hp]
    cases hl : tlookup t ((e.pid_tgid % U64) / U32) with
    | some entry =>
      exact keysP_treplace (fun x => x ≠ 0) h
    | none =>
      exact keysP_tinsert (fun x => x ≠ 0) 4096 h hp

theorem run_fault_keys (fs : List FaultEvent) : ∀ t : List (Nat × fault_stat),
    (∀ q ∈ t, q.1 ≠ 0) → ∀ q ∈ runFaults t fs, q.1 ≠ 0 := by
  induction fs with
  | nil => exact fun t h => h
  | cons e r ih => exact fun t h => ih (record_fault e t) (record_fault_keys e t h)

/-- C2: starting from the initial (empty) tables, entity id 0 is never a key
of `pid_stats` or `page_faults`, and every key of `cpu_contention` has both a
non-zero victim half (upper 32 bits) and a non-zero aggressor half (lower 32
bits): any key with a zero half is absent. -/
theorem c2_zero_id_never_key (es : List SwitchEvent) (fs : List FaultEvent) :
    tlookup (runSwitches initCpuSys es).pid_stats 0 = none
  ∧ (∀ k : Nat, k / U32 = 0 ∨ k % U32 = 0 →
      tlookup (runSwitches initCpuSys es).cpu_contention k = none)
  ∧ tlookup (runFaults [] fs) 0 = none := by
  have hcpu := run_keys es initCpuSys
    (by intro q hq; cases hq) (by intro q hq; cases hq)
  have hf := run_fault_keys fs [] (by intro q hq; cases hq)
  refine ⟨?_, ?_, ?_⟩
  · cases h : tlookup (runSwitches initCpuSys es).pid_stats 0 with
    | none => rfl
    | some v => exact absurd rfl (hcpu.1 _ (tlookup_mem h))
  · intro k hk
    cases h : tlookup (runSwitches initCpuSys es).cpu_contention k with
    | none => rfl
    | some v =>
      have hm := hcpu.2 _ (tlookup_mem h)
      rcases hk with hk | hk
      · exact absurd hk hm.1
      · exact absurd hk hm.2
  · cases h : tlookup (runFaults [] fs) 0 with
    | none => rfl
    | some v => exact absurd rfl (hf _ (tlookup_mem h))

/-- C2 witness: key 5 has a zero victim half, so it is absent from the
contention table after a concrete run. -/
theorem c2_zero_id_never_key_witness :
    ((5 : Nat) / U32 = 0 ∨ (5 : Nat) % U32 = 0)
  ∧ tlookup (runSwitches initCpuSys [evA]).cpu_contention 5 = none :=
  ⟨Or.inl (by decide),
   (c2_zero_id_never_key [evA] []).2.1 5 (Or.inl (by decide))⟩

theorem handle_preserves_entry (e : SwitchEvent) (s : CpuSys) {k : Nat}
    {v : pid_stat} (hv : tlookup s.pid_stats k = some v) :
    ∃ w, tlookup (handle_sched_switch e s).pid_stats k = some w
      ∧ (v.cgroup.headD 0 ≠ 0 → w.cgroup = v.cgroup)
      ∧ (v.comm.headD 0 ≠ 0 → w.comm = v.comm) := by
  rw [handle_stats e s]
  by_cases hp : s.st.pid ≠ 0
  · rw [if_pos hp]
    cases hl : tlookup s.pid_stats s.st.pid with
    | none =>
      have hne : s.st.pid ≠ k := by
        intro h
        rw [h, hv] at hl
        exact Option.noConfusion hl
      refine ⟨v, ?_, fun _ => rfl, fun _ => rfl⟩
      rw [tlookup_tinsert_ne 10240 s.pid_stats _ hne]
      exact hv
    | some ps =>
      by_cases hk : s.st.pid = k
      · subst hk
        rw [hv] at hl
        injection hl with hl'
        subst hl'
        refine ⟨_, tlookup_treplace_self _ hv, ?_, ?_⟩
        · intro hcg
          show (if v.cgroup.headD 0 = 0 then resolveOrPlaceholder e.graph
            else v.cgroup) = v.cgroup
          exact if_neg hcg
        · intro hcm
          show (if v.comm.headD 0 = 0 then readStr 16 e.comm else v.comm)
            = v.comm
          exact if_neg hcm
      · refine ⟨v, ?_, fun _ => rfl, fun _ => rfl⟩
        rw [tlookup_treplace_ne s.pid_stats _ hk]
        exact hv
  · rw [if_neg hp]
    exact ⟨v, hv, fun _ => rfl, fun _ => rfl⟩

theorem run_preserves_entry (q : List SwitchEvent) : ∀ (s : CpuSys) {k : Nat}
    {v : pid_stat}, tlookup s.pid_stats k = some v →
    ∃ w, tlookup (runSwitches s q).pid_stats k = some w
      ∧ (v.cgroup.headD 0 ≠ 0 → w.cgroup = v.cgroup)
      ∧ (v.comm.headD 0 ≠ 0 → w.comm = v.comm) := by
  induction q with
  | nil =>
    intro s k v hv
    exact ⟨_, hv, fun _ => rfl, fun _ => rfl⟩
  | cons e r ih =>
    intro s k v hv
    obtain ⟨w1, hw1, hcg1, hcm1⟩ := handle_preserves_entry e s hv
    obtain ⟨w2, hw2, hcg2, hcm2⟩ := ih (handle_sched_switch e s) hw1
    refine ⟨w2, hw2, ?_, ?_⟩
    · intro hcg
      have e1 := hcg1 hcg
      rw [hcg2 (by rw [e1]; exact hcg), e1]
    · intro hcm
      have e1 := hcm1 hcm
      rw [hcm2 (by rw [e1]; exact hcm), e1]

theorem record_fault_preserves_entry (e : FaultEvent)
    (t : List (Nat × fault_stat)) {k : Nat} {v : fault_stat}
    (hv : tlookup t k = some v) :
    ∃ w, tlookup (record_fault e t) k = some w
      ∧ (v.cgroup.headD 0 ≠ 0 → w.cgroup = v.cgroup) := by
  simp only [record_fault]
  by_cases hp : (e.pid_tgid % U64) / U32 = 0
  · rw [if_pos hp]
    exact ⟨v, hv, fun _ => rfl⟩
  · rw [if_neg hp]
    cases hl : tlookup t ((e.pid_tgid % U64) / U32) with
    | none =>
      have hne : (e.pid_tgid % U64) / U32 ≠ k := by
        intro h
        rw [h, hv] at hl
        exact Option.noConfusion hl
      refine ⟨v, ?_, fun _ => rfl⟩
      rw [tlookup_tinsert_ne 4096 t _ hne]
      exact hv
    | some entry =>
      by_cases hk : (e.pid_tgid % U64) / U32 = k
      · subst hk
        rw [hv] at hl
        injection hl with hl'
        subst hl'
        refine ⟨_, tlookup_treplace_self _ hv, ?_⟩
        intro hcg
        show (if v.cgroup.headD 0 = 0 then resolveOrPlaceholder e.graph
          else v.cgroup) = v.cgroup
        exact if_neg hcg
      · refine ⟨v, ?_, fun _ => rfl⟩
        rw [tlookup_treplace_ne t _ hk]
        exact hv

theorem run_fault_preserves_entry (q : List FaultEvent) :
    ∀ (t : List (Nat × fault_stat)) {k : Nat} {v : fault_stat},
    tlookup t k = some v →
    ∃ w, tlookup (runFaults t q) k = some w
      ∧ (v.cgroup.headD 0 ≠ 0 → w.cgroup = v.cgroup) := by
  induction q with
  | nil =>
    intro t k v hv
    exact ⟨_, hv, fun _ => rfl⟩
  | cons e r ih =>
    intro t k v hv
    obtain ⟨w1, hw1, hcg1⟩ := record_fault_preserves_entry e t hv
    obtain ⟨w2, hw2, hcg2⟩ := ih (record_fault e t) hw1
    refine ⟨w2, hw2, ?_⟩
    intro hcg
    have e1 := hcg1 hcg
    rw [hcg2 (by rw [e1]; exact hcg), e1]

/-- C3: once a record's `cgroup` (or `comm`) field has a non-null first byte —
the sentinel included — no later event alters it, in `pid_stats` and in
`page_faults` alike (first three conjuncts); and while the field is still
empty, the very next event hitting that key re-attempts resolution against
that event's identity graph (last two conjuncts). -/
theorem c3_freeze_invariant :
    (∀ (s : CpuSys) (q : List SwitchEvent) (k : Nat) (v : pid_stat),
        tlookup s.pid_stats k = some v → v.cgroup.headD 0 ≠ 0 →
        (tlookup (runSwitches s q).pid_stats k).map pid_stat.cgroup
          = some v.cgroup)
  ∧ (∀ (s : CpuSys) (q : List SwitchEvent) (k : Nat) (v : pid_stat),
        tlookup s.pid_stats k = some v → v.comm.headD 0 ≠ 0 →
        (tlookup (runSwitches s q).pid_stats k).map pid_stat.comm
          = some v.comm)
  ∧ (∀ (t : List (Nat × fault_stat)) (q : List FaultEvent) (k : Nat)
        (v : fault_stat),
        tlookup t k = some v → v.cgroup.headD 0 ≠ 0 →
        (tlookup (runFaults t q) k).map fault_stat.cgroup = some v.cgroup)
  ∧ (∀ (e : SwitchEvent) (s : CpuSys) (k : Nat) (v : pid_stat),
        tlookup s.pid_stats k = some v → s.st.pid = k → k ≠ 0 →
        v.cgroup.headD 0 = 0 →
        (tlookup (handle_sched_switch e s).pid_stats k).map pid_stat.cgroup
          = some (resolveOrPlaceholder e.graph))
  ∧ (∀ (e : FaultEvent) (t : List (Nat × fault_stat)) (k : Nat)
        (v : fault_stat),
        tlookup t k = some v → (e.pid_tgid % U64) / U32 = k → k ≠ 0 →
        v.cgroup.headD 0 = 0 →
        (tlookup (record_fault e t) k).map fault_stat.cgroup
          = some (resolveOrPlaceholder e.graph)) := by
  refine ⟨?_, ?_, ?_, ?_, ?_⟩
  · intro s q k v hv hcg
    obtain ⟨w, hw, hcgw, _⟩ := run_preserves_entry q s hv
    rw [hw]
    simp [hcgw hcg]
  · intro s q k v hv hcm
    obtain ⟨w, hw, _, hcmw⟩ := run_preserves_entry q s hv
    rw [hw]
    simp [hcmw hcm]
  · intro t q k v hv hcg
    obtain ⟨w, hw, hcgw⟩ := run_fault_preserves_entry q t hv
    rw [hw]
    simp [hcgw hcg]
  · intro e s k v hv hpid hk hcg
    rw [handle_stats e s, hpid, if_pos hk, hv]
    rw [tlookup_treplace_self _ hv]
    show some (if v.cgroup.headD 0 = 0 then resolveOrPlaceholder e.graph
      else v.cgroup) = some (resolveOrPlaceholder e.graph)
    rw [if_pos hcg]
  · intro e t k v hv hpid hk hcg
    simp only [record_fault]
    rw [hpid, if_neg hk, hv]
    rw [tlookup_treplace_self _ hv]
    show some (if v.cgroup.headD 0 = 0 then resolveOrPlaceholder e.graph
      else v.cgroup) = some (resolveOrPlaceholder e.graph)
    rw [if_pos hcg]

/-- C3 witness: a `pid_stats` entry for key 5 whose `cgroup` already holds the
non-null byte 110 keeps exactly that `cgroup` across a further switch event
that hits the entry. -/
theorem c3_freeze_invariant_witness :
    (tlookup (runSwitches sFrozen [evB]).pid_stats 5).map pid_stat.cgroup
      = some [110] :=
  c3_freeze_invariant.1 sFrozen [evB] 5 ⟨1, [120], [110]⟩ (by decide) (by decide)

theorem handle_stats_length (e : SwitchEvent) (s : CpuSys) :
    (handle_sched_switch e s).pid_stats.length ≤ s.pid_stats.length + 1 := by
  rw [handle_stats e s]
  by_cases hp : s.st.pid ≠ 0
  · rw [if_pos hp]
    cases hl : tlookup s.pid_stats s.st.pid with
    | none => exact tinsert_length_le 10240 s.pid_stats _ _
    | some ps =>
      rw [treplace_length]
      omega
  · rw [if_neg hp]
    omega

theorem handle_getCpu (e : SwitchEvent) (s : CpuSys) (x : Nat) (hx : x ≠ 0)
    (hcap : s.pid_stats.length < 10240)
    (hbound : getCpu (tlookup s.pid_stats x)
      + (if s.st.pid = x then usub64 (e.ts % U64) s.st.ts else 0) < U64) :
    getCpu (tlookup (handle_sched_switch e s).pid_stats x)
      = getCpu (tlookup s.pid_stats x)
        + (if s.st.pid = x then usub64 (e.ts % U64) s.st.ts else 0) := by
  rw [handle_stats e s]
  by_cases hp : s.st.pid ≠ 0
  · rw [if_pos hp]
    cases hl : tlookup s.pid_stats s.st.pid with
    | none =>
      by_cases hk : s.st.pid = x
      · subst hk
        rw [tinsert_of_none_lt 10240 _ hl hcap, hl]
        simp [tlookup, getCpu]
      · rw [tlookup_tinsert_ne 10240 s.pid_stats _ hk]
        simp [hk]
    | some ps =>
      by_cases hk : s.st.pid = x
      · subst hk
        rw [hl] at hbound ⊢
        rw [tlookup_treplace_self _ hl]
        simp only [getCpu, if_pos rfl] at hbound ⊢
        exact Nat.mod_eq_of_lt hbound
      · rw [tlookup_treplace_ne s.pid_stats _ hk]
        simp [hk]
  · rw [if_neg hp]
    push_neg at hp
    have hne : s.st.pid ≠ x := by
      rw [hp]
      exact Ne.symm hx
    simp [hne]

theorem run_getCpu (x : Nat) (hx : x ≠ 0) :
    ∀ (es : List SwitchEvent) (s : CpuSys),
    (∀ e ∈ es, EventWF e) →
    tsChain s.st.ts es →
    s.pid_stats.length + es.length ≤ 10240 →
    getCpu (tlookup s.pid_stats x) + sumFrom x s.st.pid s.st.ts es < U64 →
    getCpu (tlookup (runSwitches s es).pid_stats x)
      = getCpu (tlookup s.pid_stats x) + sumFrom x s.st.pid s.st.ts es := by
  intro es
  induction es with
  | nil =>
    intro s _ _ _ _
    simp [runSwitches, sumFrom]
  | cons e r ih =>
    intro s hwf hchain hcap hbound
    have he : EventWF e := hwf e (List.mem_cons_self e r)
    have hts1 : s.st.ts ≤ e.ts := hchain.1
    have hmod : e.ts % U64 = e.ts := Nat.mod_eq_of_lt he.1
    have hnext : e.next_pid % U32 = e.next_pid := Nat.mod_eq_of_lt he.2.2
    have hdelta : usub64 (e.ts % U64) s.st.ts = e.ts - s.st.ts := by
      rw [hmod]
      exact usub64_of_le hts1 he.1
    have hsum : sumFrom x s.st.pid s.st.ts (e :: r)
        = (if s.st.pid = x then e.ts - s.st.ts else 0)
          + sumFrom x e.next_pid e.ts r := rfl
    have hcap1 : s.pid_stats.length < 10240 := by
      simp [List.length_cons] at hcap
      omega
    have hbound1 : getCpu (tlookup s.pid_stats x)
        + (if s.st.pid = x then usub64 (e.ts % U64) s.st.ts else 0) < U64 := by
      rw [hdelta]
      rw [hsum] at hbound
      omega
    have hstep := handle_getCpu e s x hx hcap1 hbound1
    rw [hdelta] at hstep
    have hst := handle_st e s
    have hstpid : (handle_sched_switch e s).st.pid = e.next_pid := by
      rw [hst, hnext]
    have hstts : (handle_sched_switch e s).st.ts = e.ts := by
      rw [hst, hmod]
    have hih := ih (handle_sched_switch e s)
      (fun e' he' => hwf e' (List.mem_cons_of_mem e he'))
      (by rw [hstts]; exact hchain.2)
      (by
        have hlen := handle_stats_length e s
        simp [List.length_cons] at hcap
        omega)
      (by
        rw [hstep, hstpid, hstts]
        rw [hsum] at hbound
        omega)
    show getCpu (tlookup (runSwitches (handle_sched_switch e s) r).pid_stats x)
      = getCpu (tlookup s.pid_stats x) + sumFrom x s.st.pid s.st.ts (e :: r)
    rw [hih, hstep, hstpid, hstts, hsum]
    omega

/-- C1: over any monotonically timestamped event sequence on one unit, with
every event's fields in machine range, with the total small enough not to wrap
a u64, and with the table never saturating (at most 10240 events), the CPU
time accumulated for a non-zero entity x equals the sum of the consecutive
event intervals in which x was the outgoing (previously stored) entity. -/
theorem c1_cpu_time_accumulation (x : Nat) (es : List SwitchEvent)
    (hx : x ≠ 0) (hwf : ∀ e ∈ es, EventWF e) (hchain : tsChain 0 es)
    (hcap : es.length ≤ 10240) (hov : sumFrom x 0 0 es < U64) :
    getCpu (tlookup (runSwitches initCpuSys es).pid_stats x)
      = sumFrom x 0 0 es := by
  have h := run_getCpu x hx es initCpuSys hwf hchain
    (by simpa [initCpuSys] using hcap)
    (by simpa [initCpuSys, tlookup, getCpu] using hov)
  simpa [initCpuSys, tlookup, getCpu] using h

/-- C1 witness: on the three events of the worked scenario, entity 42 was the
outgoing entity only for the interval from timestamp 100 to 150, and its
accumulated time is exactly that 50ns. -/
theorem c1_cpu_time_accumulation_witness :
    getCpu (tlookup (runSwitches initCpuSys [evA, evB, evC]).pid_stats 42)
      = sumFrom 42 0 0 [evA, evB, evC]
  ∧ sumFrom 42 0 0 [evA, evB, evC] = 50 :=
  ⟨c1_cpu_time_accumulation 42 [evA, evB, evC] (by decide) (by decide)
    (by decide) (by decide) (by decide), by decide⟩

theorem snapshot_success_iff (g : TaskCtx) (len : Nat) (hlen : 0 < len) :
    (snapshot_cgroup g len).1 = true ↔
      (g.task = true ∧ g.cset = true ∧ g.cgrp = true ∧
       ∃ kn, g.kn = some kn ∧
         (kn.name.isSome ∨
          (kn.name = none ∧ ∃ p, kn.parent = some p ∧ p.name.isSome))) := by
  have hne : ¬ len = 0 := by omega
  obtain ⟨gt, gc, gg, gk⟩ := g
  rcases gk with _ | ⟨kname, kpar⟩
  · cases gt <;> cases gc <;> cases gg <;> simp [snapshot_cgroup, hne]
  · rcases kname with _ | leaf
    · rcases kpar with _ | ⟨pname⟩
      · cases gt <;> cases gc <;> cases gg <;> simp [snapshot_cgroup, hne]
      · rcases pname with _ | pn <;> cases gt <;> cases gc <;> cases gg <;>
          simp [snapshot_cgroup, hne]
    · cases gt <;> cases gc <;> cases gg <;> simp [snapshot_cgroup, hne]

theorem snapshot_fail_buf (g : TaskCtx) (len : Nat) :
    (snapshot_cgroup g len).1 = false →
    (snapshot_cgroup g len).2 = List.replicate len 0 := by
  obtain ⟨gt, gc, gg, gk⟩ := g
  by_cases hne : len = 0
  · subst hne
    simp [snapshot_cgroup]
  · rcases gk with _ | ⟨kname, kpar⟩
    · cases gt <;> cases gc <;> cases gg <;> simp [snapshot_cgroup, hne]
    · rcases kname with _ | leaf
      · rcases kpar with _ | ⟨pname⟩
        · cases gt <;> cases gc <;> cases gg <;> simp [snapshot_cgroup, hne]
        · rcases pname with _ | pn <;> cases gt <;> cases gc <;> cases gg <;>
            simp [snapshot_cgroup, hne]
      · cases gt <;> cases gc <;> cases gg <;> simp [snapshot_cgroup, hne]

/-- C4 counterexample: on a graph whose leaf node is present with an empty
(but non-NULL) name and whose parent carries the non-empty name byte 112, the
resolver returns success with an all-null buffer: success despite the leaf
name being empty, and the parent's name (which the claimed fallback would have
produced) was not written. -/
theorem c4_resolver_counterexample :
    gEmptyLeaf.kn = some ⟨some [], some ⟨some [112]⟩⟩
  ∧ (snapshot_cgroup gEmptyLeaf 64).1 = true
  ∧ (snapshot_cgroup gEmptyLeaf 64).2 = List.replicate 64 0
  ∧ readStr 64 [112] ≠ List.replicate 64 0 := by
  refine ⟨rfl, rfl, rfl, ?_⟩
  decide

/-- C4 amended: the resolver succeeds iff the walk reaches the kernfs node and
either the leaf name pointer is present (the leaf name — possibly empty — is
then written, truncated to the buffer), or the leaf name pointer is absent and
a parent node with a present name exists (the single parent retry); it fails,
leaving the buffer null, whenever the task, css_set, cgroup, node, or the
needed name/parent link is absent. -/
theorem c4_resolver_amended (g : TaskCtx) (len : Nat) (hlen : 0 < len) :
    ((snapshot_cgroup g len).1 = true ↔
       (g.task = true ∧ g.cset = true ∧ g.cgrp = true ∧
        ∃ kn, g.kn = some kn ∧
          (kn.name.isSome ∨
           (kn.name = none ∧ ∃ p, kn.parent = some p ∧ p.name.isSome))))
  ∧ (∀ (kn : KNode) (s : List Nat), g.task = true → g.cset = true →
       g.cgrp = true → g.kn = some kn → kn.name = some s →
       snapshot_cgroup g len = (true, readStr len s))
  ∧ (∀ (kn : KNode) (p : ParentNode) (s : List Nat), g.task = true →
       g.cset = true → g.cgrp = true → g.kn = some kn → kn.name = none →
       kn.parent = some p → p.name = some s →
       snapshot_cgroup g len = (true, readStr len s))
  ∧ ((snapshot_cgroup g len).1 = false →
       (snapshot_cgroup g len).2 = List.replicate len 0) := by
  have hne : ¬ len = 0 := by omega
  refine ⟨snapshot_success_iff g len hlen, ?_, ?_, snapshot_fail_buf g len⟩
  · intro kn s ht hc hg hkn hname
    simp [snapshot_cgroup, hne, ht, hc, hg, hkn, hname]
  · intro kn p s ht hc hg hkn hname hpar hpname
    simp [snapshot_cgroup, hne, ht, hc, hg, hkn, hname, hpar, hpname]

/-- C4 amended witness: on the fully present graph with leaf name "svc" the
resolver succeeds and writes that name truncated into the 64-byte buffer. -/
theorem c4_resolver_amended_witness :
    snapshot_cgroup gGood 64 = (true, readStr 64 [115, 118, 99]) :=
  (c4_resolver_amended gGood 64 (by decide)).2.1 ⟨some [115, 118, 99], none⟩
    [115, 118, 99] rfl rfl rfl rfl rfl

end HotspotBPF
